import Mathlib

/-!
Verification of the focus-duration tracking engine of wayland-appusage.

Shallow embedding of src/daemon/src/app.rs (the daemon's event handlers) and
src/tui-app/src/db.rs (the read-side aggregate query).

Modelling conventions:
* A monotonic `Instant` is a `Nat` (nanoseconds); `Instant::duration_since`
  saturates at zero, matching `Nat` subtraction.
* A wall-clock `SystemTime` is an `Int` (nanoseconds since the Unix epoch;
  negative values are times before the epoch).
* A `Duration` is a `Nat` (nanoseconds); `as_millis` is division by 10^6 and
  the `as u64` cast is reduction modulo 2^64.
* A panic (a failing `unwrap`) is `none`; all handlers return `Option`.
* A toplevel handle is a `Nat`; the `HashMap` registry is an association
  list (hash-map iteration order is unspecified in Rust, list order here).
* The rusqlite write can fail; the outcome of the k-th write attempted by
  the process is given by an oracle `wok : Nat → Bool` and a write counter,
  since the code only logs a failed insert and continues.
-/

namespace AppUsage

/-- `zwlr_foreign_toplevel_handle_v1::State` (wire values 0..3). -/
inductive TState where
  | maximized
  | minimized
  | activated
  | fullscreen
deriving DecidableEq, BEq, Repr

/-- `ToplevelInfo` from app.rs: per-window tracked state (all fields default
to `None`, as in the derived `Default`). -/
structure ToplevelInfo where
  app_id : Option String
  focused_since : Option Nat
  state : Option (List TState)
deriving DecidableEq, Repr

/-- The default-initialized `ToplevelInfo` (`or_default`). -/
def defaultTI : ToplevelInfo := { app_id := none, focused_since := none, state := none }

/-- One row of the `app_usage` table (times and duration in milliseconds,
stored as u64). -/
structure UsageRow where
  app_name : String
  start_time : Nat
  end_time : Nat
  duration : Nat
deriving DecidableEq, Repr

/-- The tracked part of `AppState`: the toplevel registry, the appended
database rows, and a counter of attempted database writes (used only to
consult the write-outcome oracle). -/
structure AppState where
  toplevels : List (Nat × ToplevelInfo)
  db : List UsageRow
  writes : Nat
deriving DecidableEq, Repr

/-- 2^64, the modulus of the `as u64` cast. -/
def U64 : Nat := 18446744073709551616

/-- `insert_usage` from app.rs: derives `start_time = end_time - duration`,
then stores all three quantities truncated to whole milliseconds. `none`
models the panic of `.duration_since(UNIX_EPOCH).unwrap()` when the derived
start (or the end) lies before the epoch. -/
def insert_usage (app_name : String) (end_time : Int) (duration : Nat) : Option UsageRow :=
  let start_time : Int := end_time - duration
  if start_time < 0 then none
  else if end_time < 0 then none
  else some { app_name := app_name,
              start_time := start_time.toNat / 1000000 % U64,
              end_time := end_time.toNat / 1000000 % U64,
              duration := duration / 1000000 % U64 }

/-- `chunks_exact(4)` over the raw byte array (the remainder is dropped). -/
def chunks4 : List Nat → List (Nat × Nat × Nat × Nat)
  | b0 :: b1 :: b2 :: b3 :: rest => (b0, b1, b2, b3) :: chunks4 rest
  | _ => []

/-- `u32::from_ne_bytes` (the target is little-endian). -/
def u32FromNeBytes (c : Nat × Nat × Nat × Nat) : Nat :=
  c.1 + 256 * c.2.1 + 65536 * c.2.2.1 + 16777216 * c.2.2.2

/-- `State::try_from(u32)` of the generated protocol bindings: only the wire
values 0..3 are valid. -/
def stateTryFrom : Nat → Option TState
  | 0 => some TState.maximized
  | 1 => some TState.minimized
  | 2 => some TState.activated
  | 3 => some TState.fullscreen
  | _ => none

/-- The decode of an `Event::State` payload in app.rs: each 4-byte chunk is
read as a native-endian u32 and converted with `try_from(..).unwrap()`;
`none` models the panic on an invalid value. -/
def decodeStates (bytes : List Nat) : Option (List TState) :=
  (chunks4 bytes).mapM (fun c => stateTryFrom (u32FromNeBytes c))

/-- Association-list lookup (the `HashMap` get). -/
def lookupTL : List (Nat × ToplevelInfo) → Nat → Option ToplevelInfo
  | [], _ => none
  | p :: rest, h => if p.1 = h then some p.2 else lookupTL rest h

/-- The entry for `h`, defaulting when absent. -/
def getEntry (ts : List (Nat × ToplevelInfo)) (h : Nat) : ToplevelInfo :=
  (lookupTL ts h).getD defaultTI

/-- `toplevels.entry(handle).or_default()`: insert a default entry when the
handle is unseen. -/
def ensure (ts : List (Nat × ToplevelInfo)) (h : Nat) : List (Nat × ToplevelInfo) :=
  match lookupTL ts h with
  | some _ => ts
  | none => ts ++ [(h, defaultTI)]

/-- Overwrite the entry for `h` (in-place mutation through the map entry). -/
def setEntry (ts : List (Nat × ToplevelInfo)) (h : Nat) (i : ToplevelInfo) :
    List (Nat × ToplevelInfo) :=
  ts.map (fun p => if p.1 = h then (h, i) else p)

/-- `toplevels.remove(handle)`. -/
def removeEntry (ts : List (Nat × ToplevelInfo)) (h : Nat) : List (Nat × ToplevelInfo) :=
  ts.filter (fun p => decide (p.1 ≠ h))

/-- `state.as_ref().is_some_and(|s| s.contains(&State::Activated))`. -/
def stateActive : Option (List TState) → Bool
  | some l => l.contains TState.activated
  | none => false

/-- The interval-emission block shared by the three close sites in app.rs:
if a session is open and an app id is known, build the row with
`insert_usage` (possibly panicking) and, when the write succeeds per the
oracle, append it; a failed write is only logged. Returns the new database
contents and write counter. -/
def emitUsage (wok : Nat → Bool) (db : List UsageRow) (w : Nat) (item : ToplevelInfo)
    (mono : Nat) (wall : Int) : Option (List UsageRow × Nat) :=
  match item.focused_since with
  | none => some (db, w)
  | some fs =>
    match item.app_id with
    | none => some (db, w)
    | some a =>
      match insert_usage a wall (mono - fs) with
      | none => none
      | some row => some ((if wok w then db ++ [row] else db), w + 1)

/-- The `Event::AppId` arm. -/
def handleAppId (s : AppState) (h : Nat) (id : String) : AppState :=
  let ts0 := ensure s.toplevels h
  let item0 := getEntry ts0 h
  { s with toplevels := setEntry ts0 h { item0 with app_id := some id } }

/-- The `Event::State` arm: decode the snapshot (panic on an invalid flag),
close the session on an active→inactive edge, open one on an
inactive→active edge, and store the new snapshot. -/
def handleState (wok : Nat → Bool) (s : AppState) (h : Nat) (bytes : List Nat)
    (mono : Nat) (wall : Int) : Option AppState :=
  let ts0 := ensure s.toplevels h
  let item0 := getEntry ts0 h
  match decodeStates bytes with
  | none => none
  | some new_state =>
    let was_active := stateActive item0.state
    let is_active := new_state.contains TState.activated
    let step1 : Option (List UsageRow × Nat × ToplevelInfo) :=
      if was_active && !is_active then
        (emitUsage wok s.db s.writes item0 mono wall).map
          (fun p => (p.1, p.2, { item0 with focused_since := none }))
      else some (s.db, s.writes, item0)
    match step1 with
    | none => none
    | some (db1, w1, item1) =>
      let item2 := if is_active && !was_active then { item1 with focused_since := some mono }
                   else item1
      let item3 := { item2 with state := some new_state }
      some { toplevels := setEntry ts0 h item3, db := db1, writes := w1 }

/-- The `Event::Closed` arm: when the stored snapshot has the activated bit,
flush any open session; then unconditionally remove the entry. -/
def handleClosed (wok : Nat → Bool) (s : AppState) (h : Nat) (mono : Nat) (wall : Int) :
    Option AppState :=
  let ts0 := ensure s.toplevels h
  let item := getEntry ts0 h
  let emitted : Option (List UsageRow × Nat) :=
    if stateActive item.state then emitUsage wok s.db s.writes item mono wall
    else some (s.db, s.writes)
  match emitted with
  | none => none
  | some (db1, w1) => some { toplevels := removeEntry ts0 h, db := db1, writes := w1 }

/-- The loop body of the `Event::Idled` arm: every entry with an open
session is flushed (subject to the app-id rule) and its session cleared;
entries with no open session are untouched. -/
def idleClose (wok : Nat → Bool) (mono : Nat) (wall : Int) :
    List (Nat × ToplevelInfo) → List UsageRow → Nat →
    Option (List (Nat × ToplevelInfo) × List UsageRow × Nat)
  | [], db, w => some ([], db, w)
  | (h, i) :: rest, db, w =>
    if i.focused_since.isSome then
      match emitUsage wok db w i mono wall with
      | none => none
      | some (db1, w1) =>
        (idleClose wok mono wall rest db1 w1).map
          (fun r => ((h, { i with focused_since := none }) :: r.1, r.2.1, r.2.2))
    else
      (idleClose wok mono wall rest db w).map (fun r => ((h, i) :: r.1, r.2.1, r.2.2))

/-- The `Event::Idled` arm. -/
def handleIdled (wok : Nat → Bool) (s : AppState) (mono : Nat) (wall : Int) :
    Option AppState :=
  (idleClose wok mono wall s.toplevels s.db s.writes).map
    (fun r => { toplevels := r.1, db := r.2.1, writes := r.2.2 })

/-- The `Event::Resumed` arm: every entry whose stored snapshot has the
activated bit gets a fresh session starting now. -/
def resumeEntry (mono : Nat) (p : Nat × ToplevelInfo) : Nat × ToplevelInfo :=
  if stateActive p.2.state then (p.1, { p.2 with focused_since := some mono }) else p

/-- The `Event::Resumed` batch over the registry. -/
def handleResumed (s : AppState) (mono : Nat) : AppState :=
  { s with toplevels := s.toplevels.map (resumeEntry mono) }

/-- The event stream consumed by the engine. Events that read the clocks
carry the monotonic reading `mono` (ns) and, where a wall-clock time is
taken, the wall reading `wall` (ns since epoch). -/
inductive Event where
  | appId (h : Nat) (id : String)
  | stateEv (h : Nat) (bytes : List Nat) (mono : Nat) (wall : Int)
  | closed (h : Nat) (mono : Nat) (wall : Int)
  | idled (mono : Nat) (wall : Int)
  | resumed (mono : Nat)
deriving DecidableEq, Repr

/-- Dispatch of one event (none = the process panicked). -/
def step (wok : Nat → Bool) (s : AppState) : Event → Option AppState
  | Event.appId h id => some (handleAppId s h id)
  | Event.stateEv h bytes mono wall => handleState wok s h bytes mono wall
  | Event.closed h mono wall => handleClosed wok s h mono wall
  | Event.idled mono wall => handleIdled wok s mono wall
  | Event.resumed mono => some (handleResumed s mono)

/-- The empty initial state (fresh `AppState::new`). -/
def initState : AppState := { toplevels := [], db := [], writes := 0 }

/-- Process an event list in order from a given state. -/
def runFrom (wok : Nat → Bool) (s : AppState) : List Event → Option AppState
  | [] => some s
  | e :: es =>
    match step wok s e with
    | none => none
    | some s' => runFrom wok s' es

/-- Process an event list from the initial state. -/
def run (wok : Nat → Bool) (es : List Event) : Option AppState :=
  runFrom wok initState es

/-- The oracle under which every database write succeeds. -/
def allOk : Nat → Bool := fun _ => true

/-- The oracle under which every database write fails. -/
def neverOk : Nat → Bool := fun _ => false

/-- The global idle state determined by the event history: `true` (Idle)
exactly when an Idled event has been processed with no later Resumed. The
source keeps no such flag; this is the history predicate the spec's
`GlobalIdleState` refers to. -/
def globalIdle (es : List Event) : Bool :=
  es.foldl (fun b e => match e with
    | Event.idled _ _ => true
    | Event.resumed _ => false
    | _ => b) false

/-- The WHERE filter of `get_data_for_app_and_time` in tui-app/src/db.rs:
`app_name == ? and start_time >= ? and start_time < ?`. -/
def usageFilter (rows : List UsageRow) (app : String) (start_time end_time : Nat) :
    List UsageRow :=
  rows.filter (fun r => r.app_name == app
    && decide (start_time ≤ r.start_time) && decide (r.start_time < end_time))

/-- SQL `sum(...)` aggregation: NULL (`none`) over zero rows. -/
def sqlSumAgg (l : List Nat) : Option Nat :=
  if l.isEmpty then none else some l.sum

/-- `get_data_for_app_and_time` from tui-app/src/db.rs: the summed duration
for one app in a `[start,end)` window over `start_time`, with the NULL sum
read back as 0 (`unwrap_or(0)`). -/
def get_data_for_app_and_time (rows : List UsageRow) (app : String)
    (start_time end_time : Nat) : Nat :=
  (sqlSumAgg ((usageFilter rows app start_time end_time).map UsageRow.duration)).getD 0

/-- Spec-side definition, from the spec's words: "summing all intervals with
`app_name = X` recorded within `[start,end)`" — the sum of the durations of
the stored rows whose app name equals `X` and whose stored start time lies
in the window. -/
def spec_window_sum (rows : List UsageRow) (app : String) (start_time end_time : Nat) : Nat :=
  ((rows.filter (fun r => decide (r.app_name = app)
    && decide (start_time ≤ r.start_time) && decide (r.start_time < end_time))).map
      UsageRow.duration).sum

/-! ### Registry lemmas -/

theorem lookupTL_mem {ts : List (Nat × ToplevelInfo)} {h : Nat} {x : ToplevelInfo}
    (hl : lookupTL ts h = some x) : (h, x) ∈ ts := by
  induction ts with
  | nil => simp [lookupTL] at hl
  | cons p rest ih =>
    rcases p with ⟨a, b⟩
    simp only [lookupTL] at hl
    by_cases hp : a = h
    · rw [if_pos hp] at hl
      injection hl with hbx
      subst hbx
      subst hp
      exact List.mem_cons_self _ _
    · rw [if_neg hp] at hl
      exact List.mem_cons_of_mem _ (ih hl)

theorem lookupTL_append_none {ts l2 : List (Nat × ToplevelInfo)} {h : Nat}
    (hl : lookupTL ts h = none) : lookupTL (ts ++ l2) h = lookupTL l2 h := by
  induction ts with
  | nil => rfl
  | cons p rest ih =>
    rcases p with ⟨a, b⟩
    simp only [lookupTL] at hl
    by_cases hp : a = h
    · rw [if_pos hp] at hl
      exact absurd hl (by simp)
    · rw [if_neg hp] at hl
      simp only [List.cons_append, lookupTL]
      rw [if_neg hp]
      exact ih hl

theorem getEntry_ensure (ts : List (Nat × ToplevelInfo)) (h : Nat) :
    getEntry (ensure ts h) h = getEntry ts h := by
  unfold ensure
  cases hl : lookupTL ts h with
  | some x => rfl
  | none =>
    unfold getEntry
    rw [lookupTL_append_none hl, hl]
    simp [lookupTL]

theorem lookupTL_ensure (ts : List (Nat × ToplevelInfo)) (h : Nat) :
    lookupTL (ensure ts h) h = some (getEntry ts h) := by
  unfold ensure
  cases hl : lookupTL ts h with
  | some x => simp [getEntry, hl]
  | none =>
    rw [lookupTL_append_none hl]
    simp [lookupTL, getEntry, hl]

theorem ensure_of_lookup {ts : List (Nat × ToplevelInfo)} {h : Nat} {x : ToplevelInfo}
    (hl : lookupTL ts h = some x) : ensure ts h = ts := by
  unfold ensure
  rw [hl]

theorem getEntry_of_lookup {ts : List (Nat × ToplevelInfo)} {h : Nat} {x : ToplevelInfo}
    (hl : lookupTL ts h = some x) : getEntry ts h = x := by
  unfold getEntry
  rw [hl]
  rfl

theorem mem_setEntry {q : Nat × ToplevelInfo} {ts : List (Nat × ToplevelInfo)} {h : Nat}
    {i : ToplevelInfo} (hq : q ∈ setEntry ts h i) : q = (h, i) ∨ q ∈ ts := by
  unfold setEntry at hq
  rcases List.mem_map.mp hq with ⟨p, hp, hpq⟩
  by_cases hph : p.1 = h
  · left
    rw [if_pos hph] at hpq
    exact hpq.symm
  · right
    rw [if_neg hph] at hpq
    exact hpq ▸ hp

theorem lookupTL_setEntry {ts : List (Nat × ToplevelInfo)} {h : Nat} {x : ToplevelInfo}
    (i : ToplevelInfo) (hl : lookupTL ts h = some x) :
    lookupTL (setEntry ts h i) h = some i := by
  induction ts with
  | nil => simp [lookupTL] at hl
  | cons p rest ih =>
    rcases p with ⟨a, b⟩
    simp only [lookupTL] at hl
    by_cases hp : a = h
    · simp [setEntry, lookupTL, hp]
    · rw [if_neg hp] at hl
      simp only [setEntry, List.map_cons]
      rw [if_neg hp]
      simp only [lookupTL]
      rw [if_neg hp]
      exact ih hl

theorem mem_ensure {q : Nat × ToplevelInfo} {ts : List (Nat × ToplevelInfo)} {h : Nat}
    (hq : q ∈ ensure ts h) : q ∈ ts ∨ q = (h, defaultTI) := by
  unfold ensure at hq
  cases hl : lookupTL ts h with
  | some x => rw [hl] at hq; exact Or.inl hq
  | none =>
    rw [hl] at hq
    rcases List.mem_append.mp hq with hq | hq
    · exact Or.inl hq
    · simp at hq
      exact Or.inr hq

theorem lookupTL_removeEntry (ts : List (Nat × ToplevelInfo)) (h : Nat) :
    lookupTL (removeEntry ts h) h = none := by
  induction ts with
  | nil => rfl
  | cons p rest ih =>
    by_cases hp : p.1 = h
    · simpa [removeEntry, hp] using ih
    · simpa [removeEntry, lookupTL, hp] using ih

theorem mem_removeEntry {q : Nat × ToplevelInfo} {ts : List (Nat × ToplevelInfo)} {h : Nat}
    (hq : q ∈ removeEntry ts h) : q ∈ ts :=
  (List.mem_filter.mp hq).1

/-! ### Emission lemmas -/

theorem insert_usage_eq_some (a : String) {endt : Int} {dur : Nat}
    (hp : 0 ≤ endt - (dur : Int)) :
    insert_usage a endt dur =
      some { app_name := a,
             start_time := (endt - (dur : Int)).toNat / 1000000 % U64,
             end_time := endt.toNat / 1000000 % U64,
             duration := dur / 1000000 % U64 } := by
  have h2 : ¬ endt < 0 := by omega
  have h1 : ¬ endt - (dur : Int) < 0 := not_lt.mpr hp
  simp only [insert_usage]
  rw [if_neg h1, if_neg h2]

theorem emitUsage_some_of (wok : Nat → Bool) (db : List UsageRow) (w mono : Nat) (wall : Int)
    {item : ToplevelInfo} {fs : Nat} {a : String} {row : UsageRow}
    (hfs : item.focused_since = some fs) (ha : item.app_id = some a)
    (hrow : insert_usage a wall (mono - fs) = some row) :
    emitUsage wok db w item mono wall = some ((if wok w then db ++ [row] else db), w + 1) := by
  simp only [emitUsage, hfs, ha, hrow]

theorem emitUsage_isSome_congr (w1 w2 : Nat → Bool) (db1 db2 : List UsageRow) (ww1 ww2 : Nat)
    (item : ToplevelInfo) (mono : Nat) (wall : Int) :
    (emitUsage w1 db1 ww1 item mono wall).isSome = (emitUsage w2 db2 ww2 item mono wall).isSome := by
  cases hf : item.focused_since with
  | none => simp [emitUsage, hf]
  | some fs =>
    cases ha : item.app_id with
    | none => simp [emitUsage, hf, ha]
    | some a =>
      cases hr : insert_usage a wall (mono - fs) with
      | none => simp [emitUsage, hf, ha, hr]
      | some row => simp [emitUsage, hf, ha, hr]

theorem emitUsage_db_neverOk {db : List UsageRow} {w : Nat} {item : ToplevelInfo}
    {mono : Nat} {wall : Int} {db' : List UsageRow} {w' : Nat}
    (he : emitUsage neverOk db w item mono wall = some (db', w')) : db' = db := by
  unfold emitUsage at he
  split at he
  · simp only [Option.some.injEq, Prod.mk.injEq] at he
    exact he.1.symm
  · split at he
    · simp only [Option.some.injEq, Prod.mk.injEq] at he
      exact he.1.symm
    · split at he
      · exact absurd he (by simp)
      · simp only [Option.some.injEq, Prod.mk.injEq] at he
        rw [← he.1]
        simp [neverOk]

/-! ### The reachable-state invariant -/

/-- Every registry entry with an open session has the activated bit in its
stored snapshot. This is the part of the spec's invariant I1 that the code
maintains. -/
def Inv (s : AppState) : Prop :=
  ∀ q ∈ s.toplevels, q.2.focused_since.isSome = true → stateActive q.2.state = true

theorem inv_getEntry {s : AppState} (hinv : Inv s) (h : Nat)
    (hf : (getEntry s.toplevels h).focused_since.isSome = true) :
    stateActive (getEntry s.toplevels h).state = true := by
  cases hl : lookupTL s.toplevels h with
  | some x =>
    rw [getEntry_of_lookup hl] at hf ⊢
    exact hinv (h, x) (lookupTL_mem hl) hf
  | none =>
    unfold getEntry at hf
    rw [hl] at hf
    simp [defaultTI] at hf

theorem inv_handleAppId {s : AppState} (hinv : Inv s) (h : Nat) (id : String) :
    Inv (handleAppId s h id) := by
  intro q hq hf
  unfold handleAppId at hq
  rcases mem_setEntry hq with rfl | hq'
  · simp only at hf ⊢
    rw [getEntry_ensure] at hf ⊢
    exact inv_getEntry hinv h hf
  · rcases mem_ensure hq' with hq'' | rfl
    · exact hinv q hq'' hf
    · simp [defaultTI] at hf

theorem inv_handleState {wok : Nat → Bool} {s : AppState} {h : Nat} {bytes : List Nat}
    {mono : Nat} {wall : Int} {s' : AppState} (hinv : Inv s)
    (hs : handleState wok s h bytes mono wall = some s') : Inv s' := by
  cases hdec : decodeStates bytes with
  | none => simp [handleState, hdec] at hs
  | some ns =>
    have hit0 : getEntry (ensure s.toplevels h) h = getEntry s.toplevels h := getEntry_ensure _ _
    simp only [handleState, hdec] at hs
    cases hwas : stateActive (getEntry (ensure s.toplevels h) h).state with
    | true =>
      cases his : ns.contains TState.activated with
      | true =>
        rw [hwas, his] at hs
        simp only [Bool.not_true, Bool.and_false, Bool.false_and, Bool.and_self] at hs
        simp only [if_neg (by simp : ¬ (false = true))] at hs
        simp only [Option.some.injEq] at hs
        subst hs
        intro q hq hf
        rcases mem_setEntry hq with rfl | hq'
        · simp [stateActive, his]
        · rcases mem_ensure hq' with hq'' | rfl
          · exact hinv q hq'' hf
          · simp [defaultTI] at hf
      | false =>
        rw [hwas, his] at hs
        simp only [Bool.not_false, Bool.and_true, Bool.and_self, if_true] at hs
        cases hemit : emitUsage wok s.db s.writes (getEntry (ensure s.toplevels h) h) mono wall with
        | none => rw [hemit] at hs; simp at hs
        | some p =>
          rw [hemit] at hs
          simp only [Option.map_some', Bool.false_and, if_neg (by simp : ¬ (false = true)),
            Option.some.injEq] at hs
          subst hs
          intro q hq hf
          rcases mem_setEntry hq with rfl | hq'
          · simp at hf
          · rcases mem_ensure hq' with hq'' | rfl
            · exact hinv q hq'' hf
            · simp [defaultTI] at hf
    | false =>
      cases his : ns.contains TState.activated with
      | true =>
        rw [hwas, his] at hs
        simp only [Bool.not_true, Bool.and_false, Bool.not_false, Bool.true_and,
          if_neg (by simp : ¬ (false = true)), if_pos rfl, Option.some.injEq] at hs
        subst hs
        intro q hq hf
        rcases mem_setEntry hq with rfl | hq'
        · simp [stateActive, his]
        · rcases mem_ensure hq' with hq'' | rfl
          · exact hinv q hq'' hf
          · simp [defaultTI] at hf
      | false =>
        rw [hwas, his] at hs
        simp only [Bool.not_false, Bool.false_and, Bool.and_false,
          if_neg (by simp : ¬ (false = true)), Option.some.injEq] at hs
        subst hs
        intro q hq hf
        rcases mem_setEntry hq with rfl | hq'
        · exfalso
          simp only at hf
          rw [hit0] at hf
          have := inv_getEntry hinv h hf
          rw [← hit0] at this
          rw [hwas] at this
          exact absurd this (by simp)
        · rcases mem_ensure hq' with hq'' | rfl
          · exact hinv q hq'' hf
          · simp [defaultTI] at hf

theorem handleClosed_toplevels {wok : Nat → Bool} {s : AppState} {h mono : Nat} {wall : Int}
    {s' : AppState} (hs : handleClosed wok s h mono wall = some s') :
    s'.toplevels = removeEntry (ensure s.toplevels h) h := by
  simp only [handleClosed] at hs
  split at hs
  · exact absurd hs (by simp)
  · injection hs with hs
    subst hs
    rfl

theorem inv_handleClosed {wok : Nat → Bool} {s : AppState} {h mono : Nat} {wall : Int}
    {s' : AppState} (hinv : Inv s) (hs : handleClosed wok s h mono wall = some s') : Inv s' := by
  intro q hq hf
  rw [handleClosed_toplevels hs] at hq
  rcases mem_ensure (mem_removeEntry hq) with hq'' | rfl
  · exact hinv q hq'' hf
  · simp [defaultTI] at hf

theorem idleClose_focused_none {wok : Nat → Bool} {mono : Nat} {wall : Int} :
    ∀ {ts : List (Nat × ToplevelInfo)} {db : List UsageRow} {w : Nat}
      {ts' : List (Nat × ToplevelInfo)} {db' : List UsageRow} {w' : Nat},
      idleClose wok mono wall ts db w = some (ts', db', w') →
      ∀ q ∈ ts', q.2.focused_since = none := by
  intro ts
  induction ts with
  | nil =>
    intro db w ts' db' w' hs q hq
    simp only [idleClose, Option.some.injEq, Prod.mk.injEq] at hs
    rw [← hs.1] at hq
    simp at hq
  | cons p rest ih =>
    intro db w ts' db' w' hs q hq
    rcases p with ⟨hh, i⟩
    simp only [idleClose] at hs
    by_cases hfoc : i.focused_since.isSome = true
    · rw [if_pos hfoc] at hs
      cases hemit : emitUsage wok db w i mono wall with
      | none => rw [hemit] at hs; simp at hs
      | some p1 =>
        rw [hemit] at hs
        rcases Option.map_eq_some'.mp hs with ⟨r, hr, hrt⟩
        rcases r with ⟨rts, rdb, rw'⟩
        simp only [Prod.mk.injEq] at hrt
        rw [← hrt.1] at hq
        rcases List.mem_cons.mp hq with rfl | hq'
        · rfl
        · exact ih hr q hq'
    · rw [if_neg hfoc] at hs
      rcases Option.map_eq_some'.mp hs with ⟨r, hr, hrt⟩
      rcases r with ⟨rts, rdb, rw'⟩
      simp only [Prod.mk.injEq] at hrt
      rw [← hrt.1] at hq
      rcases List.mem_cons.mp hq with rfl | hq'
      · exact Option.not_isSome_iff_eq_none.mp (by simpa using hfoc)
      · exact ih hr q hq'

theorem inv_handleIdled {wok : Nat → Bool} {s : AppState} {mono : Nat} {wall : Int}
    {s' : AppState} (hs : handleIdled wok s mono wall = some s') : Inv s' := by
  unfold handleIdled at hs
  rcases Option.map_eq_some'.mp hs with ⟨r, hr, hs'⟩
  rcases r with ⟨rts, rdb, rw'⟩
  subst hs'
  intro q hq hf
  have := idleClose_focused_none hr q hq
  simp [this] at hf

theorem inv_handleResumed {s : AppState} (hinv : Inv s) (mono : Nat) :
    Inv (handleResumed s mono) := by
  intro q hq hf
  unfold handleResumed at hq
  simp only at hq
  rcases List.mem_map.mp hq with ⟨p, hp, hpq⟩
  unfold resumeEntry at hpq
  by_cases hact : stateActive p.2.state = true
  · rw [if_pos hact] at hpq
    rw [← hpq]
    simpa using hact
  · rw [if_neg hact] at hpq
    subst hpq
    exact hinv p hp hf

theorem inv_step {wok : Nat → Bool} {s : AppState} {e : Event} {s' : AppState}
    (hinv : Inv s) (hs : step wok s e = some s') : Inv s' := by
  cases e with
  | appId h id =>
    simp only [step, Option.some.injEq] at hs
    subst hs
    exact inv_handleAppId hinv h id
  | stateEv h bytes mono wall => exact inv_handleState hinv hs
  | closed h mono wall => exact inv_handleClosed hinv hs
  | idled mono wall => exact inv_handleIdled hs
  | resumed mono =>
    simp only [step, Option.some.injEq] at hs
    subst hs
    exact inv_handleResumed hinv mono

theorem inv_runFrom {wok : Nat → Bool} :
    ∀ {es : List Event} {s s' : AppState}, Inv s → runFrom wok s es = some s' → Inv s' := by
  intro es
  induction es with
  | nil =>
    intro s s' hinv hr
    simp only [runFrom, Option.some.injEq] at hr
    subst hr
    exact hinv
  | cons e rest ih =>
    intro s s' hinv hr
    simp only [runFrom] at hr
    cases hstep : step wok s e with
    | none => rw [hstep] at hr; simp at hr
    | some s1 =>
      rw [hstep] at hr
      exact ih (inv_step hinv hstep) hr

theorem inv_run {wok : Nat → Bool} {es : List Event} {s : AppState}
    (hr : run wok es = some s) : Inv s :=
  inv_runFrom (by intro q hq hf; simp [initState] at hq) hr

/-! ### The write-outcome oracle does not influence the in-memory state -/

theorem idleClose_fst_congr (w1 w2 : Nat → Bool) (mono : Nat) (wall : Int) :
    ∀ (ts : List (Nat × ToplevelInfo)) (db1 db2 : List UsageRow) (ww1 ww2 : Nat),
      (idleClose w1 mono wall ts db1 ww1).map (fun r => r.1)
        = (idleClose w2 mono wall ts db2 ww2).map (fun r => r.1) := by
  intro ts
  induction ts with
  | nil => intro db1 db2 ww1 ww2; rfl
  | cons p rest ih =>
    intro db1 db2 ww1 ww2
    rcases p with ⟨hh, i⟩
    simp only [idleClose]
    by_cases hfoc : i.focused_since.isSome = true
    · rw [if_pos hfoc, if_pos hfoc]
      have hcongr := emitUsage_isSome_congr w1 w2 db1 db2 ww1 ww2 i mono wall
      split
      next he1 =>
        split
        next he2 => rfl
        next p2 he2 => rw [he1, he2] at hcongr; simp at hcongr
      next db1a ww1a he1 =>
        split
        next he2 => rw [he1, he2] at hcongr; simp at hcongr
        next db2a ww2a he2 =>
          have hrec := ih db1a db2a ww1a ww2a
          cases hr1 : idleClose w1 mono wall rest db1a ww1a with
          | none =>
            cases hr2 : idleClose w2 mono wall rest db2a ww2a with
            | none => rfl
            | some r2 => rw [hr1, hr2] at hrec; simp at hrec
          | some r1 =>
            cases hr2 : idleClose w2 mono wall rest db2a ww2a with
            | none => rw [hr1, hr2] at hrec; simp at hrec
            | some r2 =>
              rw [hr1, hr2] at hrec
              simp only [Option.map_some', Option.some.injEq] at hrec ⊢
              rw [hrec]
    · rw [if_neg hfoc, if_neg hfoc]
      have hrec := ih db1 db2 ww1 ww2
      cases hr1 : idleClose w1 mono wall rest db1 ww1 with
      | none =>
        cases hr2 : idleClose w2 mono wall rest db2 ww2 with
        | none => rfl
        | some r2 => rw [hr1, hr2] at hrec; simp at hrec
      | some r1 =>
        cases hr2 : idleClose w2 mono wall rest db2 ww2 with
        | none => rw [hr1, hr2] at hrec; simp at hrec
        | some r2 =>
          rw [hr1, hr2] at hrec
          simp only [Option.map_some', Option.some.injEq] at hrec ⊢
          rw [hrec]

theorem step_tl_congr (w1 w2 : Nat → Bool) {s1 s2 : AppState} (e : Event)
    (hts : s1.toplevels = s2.toplevels) :
    (step w1 s1 e).map AppState.toplevels = (step w2 s2 e).map AppState.toplevels := by
  cases e with
  | appId h id => simp [step, handleAppId, hts]
  | stateEv h bytes mono wall =>
    simp only [step, handleState, hts]
    split
    next hdec => rfl
    next ns hdec =>
      by_cases hc : (stateActive (getEntry (ensure s2.toplevels h) h).state
          && !ns.contains TState.activated) = true
      · rw [if_pos hc, if_pos hc]
        have hcongr := emitUsage_isSome_congr w1 w2 s1.db s2.db s1.writes s2.writes
          (getEntry (ensure s2.toplevels h) h) mono wall
        cases he1 : emitUsage w1 s1.db s1.writes (getEntry (ensure s2.toplevels h) h) mono wall with
        | none =>
          cases he2 : emitUsage w2 s2.db s2.writes (getEntry (ensure s2.toplevels h) h) mono wall with
          | none => rfl
          | some p2 => rw [he1, he2] at hcongr; simp at hcongr
        | some p1 =>
          cases he2 : emitUsage w2 s2.db s2.writes (getEntry (ensure s2.toplevels h) h) mono wall with
          | none => rw [he1, he2] at hcongr; simp at hcongr
          | some p2 => rfl
      · rw [if_neg hc, if_neg hc]
        rfl
  | closed h mono wall =>
    simp only [step, handleClosed, hts]
    by_cases hc : stateActive (getEntry (ensure s2.toplevels h) h).state = true
    · rw [if_pos hc, if_pos hc]
      have hcongr := emitUsage_isSome_congr w1 w2 s1.db s2.db s1.writes s2.writes
        (getEntry (ensure s2.toplevels h) h) mono wall
      cases he1 : emitUsage w1 s1.db s1.writes (getEntry (ensure s2.toplevels h) h) mono wall with
      | none =>
        cases he2 : emitUsage w2 s2.db s2.writes (getEntry (ensure s2.toplevels h) h) mono wall with
        | none => rfl
        | some p2 => rw [he1, he2] at hcongr; simp at hcongr
      | some p1 =>
        cases he2 : emitUsage w2 s2.db s2.writes (getEntry (ensure s2.toplevels h) h) mono wall with
        | none => rw [he1, he2] at hcongr; simp at hcongr
        | some p2 => rcases p1 with ⟨a1, b1⟩; rcases p2 with ⟨a2, b2⟩; rfl
    · rw [if_neg hc, if_neg hc]
      rfl
  | idled mono wall =>
    simp only [step, handleIdled, hts]
    have hcongr := idleClose_fst_congr w1 w2 mono wall s2.toplevels s1.db s2.db s1.writes s2.writes
    cases hr1 : idleClose w1 mono wall s2.toplevels s1.db s1.writes with
    | none =>
      cases hr2 : idleClose w2 mono wall s2.toplevels s2.db s2.writes with
      | none => rfl
      | some r2 => rw [hr1, hr2] at hcongr; simp at hcongr
    | some r1 =>
      cases hr2 : idleClose w2 mono wall s2.toplevels s2.db s2.writes with
      | none => rw [hr1, hr2] at hcongr; simp at hcongr
      | some r2 =>
        rw [hr1, hr2] at hcongr
        simp only [Option.map_some', Option.some.injEq] at hcongr ⊢
        exact hcongr
  | resumed mono => simp [step, handleResumed, hts]

theorem runFrom_tl_congr (w1 w2 : Nat → Bool) :
    ∀ (es : List Event) {s1 s2 : AppState}, s1.toplevels = s2.toplevels →
      (runFrom w1 s1 es).map AppState.toplevels = (runFrom w2 s2 es).map AppState.toplevels := by
  intro es
  induction es with
  | nil => intro s1 s2 h; simp [runFrom, h]
  | cons e rest ih =>
    intro s1 s2 h
    simp only [runFrom]
    have hst := step_tl_congr w1 w2 e h
    cases hs1 : step w1 s1 e with
    | none =>
      cases hs2 : step w2 s2 e with
      | none => rfl
      | some s2a => rw [hs1, hs2] at hst; simp at hst
    | some s1a =>
      cases hs2 : step w2 s2 e with
      | none => rw [hs1, hs2] at hst; simp at hst
      | some s2a =>
        rw [hs1, hs2] at hst
        simp only [Option.map_some', Option.some.injEq] at hst
        exact ih hst

theorem idleClose_db_neverOk {mono : Nat} {wall : Int} :
    ∀ {ts : List (Nat × ToplevelInfo)} {db : List UsageRow} {w : Nat}
      {ts' : List (Nat × ToplevelInfo)} {db' : List UsageRow} {w' : Nat},
      idleClose neverOk mono wall ts db w = some (ts', db', w') → db' = db := by
  intro ts
  induction ts with
  | nil =>
    intro db w ts' db' w' hs
    simp only [idleClose, Option.some.injEq, Prod.mk.injEq] at hs
    exact hs.2.1.symm
  | cons p rest ih =>
    intro db w ts' db' w' hs
    rcases p with ⟨hh, i⟩
    simp only [idleClose] at hs
    by_cases hfoc : i.focused_since.isSome = true
    · rw [if_pos hfoc] at hs
      cases hemit : emitUsage neverOk db w i mono wall with
      | none => rw [hemit] at hs; simp at hs
      | some p1 =>
        rw [hemit] at hs
        rcases p1 with ⟨db1, w1⟩
        rcases Option.map_eq_some'.mp hs with ⟨r, hr, hrt⟩
        rcases r with ⟨rts, rdb, rww⟩
        simp only [Prod.mk.injEq] at hrt
        rw [← hrt.2.1]
        rw [ih hr]
        exact emitUsage_db_neverOk hemit
    · rw [if_neg hfoc] at hs
      rcases Option.map_eq_some'.mp hs with ⟨r, hr, hrt⟩
      rcases r with ⟨rts, rdb, rww⟩
      simp only [Prod.mk.injEq] at hrt
      rw [← hrt.2.1]
      exact ih hr

theorem step_db_neverOk {s : AppState} {e : Event} {s' : AppState}
    (hs : step neverOk s e = some s') : s'.db = s.db := by
  cases e with
  | appId h id =>
    simp only [step, Option.some.injEq] at hs
    subst hs
    rfl
  | stateEv h bytes mono wall =>
    simp only [step, handleState] at hs
    split at hs
    next hdec => simp at hs
    next ns hdec =>
      by_cases hc : (stateActive (getEntry (ensure s.toplevels h) h).state
          && !ns.contains TState.activated) = true
      · rw [if_pos hc] at hs
        cases hemit : emitUsage neverOk s.db s.writes (getEntry (ensure s.toplevels h) h) mono wall with
        | none => rw [hemit] at hs; simp at hs
        | some p =>
          rw [hemit] at hs
          rcases p with ⟨db1, w1⟩
          simp only [Option.map_some', Option.some.injEq] at hs
          subst hs
          exact emitUsage_db_neverOk hemit
      · rw [if_neg hc] at hs
        simp only [Option.some.injEq] at hs
        subst hs
        rfl
  | closed h mono wall =>
    simp only [step, handleClosed] at hs
    by_cases hc : stateActive (getEntry (ensure s.toplevels h) h).state = true
    · rw [if_pos hc] at hs
      cases hemit : emitUsage neverOk s.db s.writes (getEntry (ensure s.toplevels h) h) mono wall with
      | none => rw [hemit] at hs; simp at hs
      | some p =>
        rw [hemit] at hs
        rcases p with ⟨db1, w1⟩
        simp only [Option.some.injEq] at hs
        subst hs
        exact emitUsage_db_neverOk hemit
    · rw [if_neg hc] at hs
      simp only [Option.some.injEq] at hs
      subst hs
      rfl
  | idled mono wall =>
    simp only [step, handleIdled] at hs
    rcases Option.map_eq_some'.mp hs with ⟨r, hr, hs'⟩
    rcases r with ⟨rts, rdb, rww⟩
    subst hs'
    exact idleClose_db_neverOk hr
  | resumed mono =>
    simp only [step, Option.some.injEq] at hs
    subst hs
    rfl

theorem runFrom_db_neverOk :
    ∀ {es : List Event} {s s' : AppState}, runFrom neverOk s es = some s' → s'.db = s.db := by
  intro es
  induction es with
  | nil =>
    intro s s' hr
    simp only [runFrom, Option.some.injEq] at hr
    subst hr
    rfl
  | cons e rest ih =>
    intro s s' hr
    simp only [runFrom] at hr
    cases hstep : step neverOk s e with
    | none => rw [hstep] at hr; simp at hr
    | some s1 =>
      rw [hstep] at hr
      rw [ih hr]
      exact step_db_neverOk hstep

/-! ### Small computation lemmas -/

theorem decode_activated : decodeStates [2, 0, 0, 0] = some [TState.activated] := rfl

theorem decode_empty : decodeStates ([] : List Nat) = some [] := rfl

theorem contains_activated : ([TState.activated].contains TState.activated) = true := rfl

theorem beq_activated_self : (TState.activated == TState.activated) = true := rfl

theorem sqlSumAgg_getD (l : List Nat) : (sqlSumAgg l).getD 0 = l.sum := by
  cases l with
  | nil => rfl
  | cons x xs => rfl

/-! ### Claims -/

/-- C3: Idle exclusion — a toplevel with app id "X" activated at t=0, Idled
at t=10s, Resumed at t=40s and deactivated at t=50s yields exactly two
stored intervals, [0s,10s) and [40s,50s), each of duration 10s (10000 ms),
totalling 20s rather than 50s. -/
theorem C3_idle_exclusion :
    (run allOk [Event.appId 1 "X", Event.stateEv 1 [2, 0, 0, 0] 0 0,
        Event.idled 10000000000 10000000000, Event.resumed 40000000000,
        Event.stateEv 1 [] 50000000000 50000000000]).map AppState.db
      = some [{ app_name := "X", start_time := 0, end_time := 10000, duration := 10000 },
              { app_name := "X", start_time := 40000, end_time := 50000, duration := 10000 }]
    ∧ (run allOk [Event.appId 1 "X", Event.stateEv 1 [2, 0, 0, 0] 0 0,
        Event.idled 10000000000 10000000000, Event.resumed 40000000000,
        Event.stateEv 1 [] 50000000000 50000000000]).map
          (fun s => (s.db.map UsageRow.duration).sum) = some 20000 :=
  ⟨rfl, rfl⟩

/-- C5 counterexample: with sub-millisecond inputs (end 1.5 ms, duration
0.7 ms after the epoch) the stored row is (start 0 ms, end 1 ms, duration
0 ms), and 0 ≠ 1 − 0: the stored start does not equal stored end minus
stored duration because the three values are truncated independently. -/
theorem C5_counterexample :
    insert_usage "X" 1500000 700000
      = some { app_name := "X", start_time := 0, end_time := 1, duration := 0 }
    ∧ ¬ ((0 : Nat) = 1 - 0) :=
  ⟨rfl, by decide⟩

/-- C5 amended: when the wall-clock end time and the measured duration are
whole milliseconds (and the end fits in u64 milliseconds), the stored
start_time equals the stored end_time minus the stored duration, and the
stored duration equals stored end minus stored start; with sub-millisecond
components the identity can be off by one millisecond (see the
counterexample). -/
theorem C5_amended_whole_millis (a : String) (ent dur : Nat) (row : UsageRow)
    (h1 : 1000000 ∣ ent) (h2 : 1000000 ∣ dur) (h3 : dur ≤ ent)
    (h4 : ent / 1000000 < U64)
    (hrow : insert_usage a (ent : Int) dur = some row) :
    row.start_time = row.end_time - row.duration
    ∧ row.duration = row.end_time - row.start_time := by
  obtain ⟨e, rfl⟩ := h1
  obtain ⟨d, rfl⟩ := h2
  have hde : d ≤ e := by omega
  simp only [insert_usage] at hrow
  split at hrow
  next hlt => exact absurd hlt (by push_cast; omega)
  next hge =>
    split at hrow
    next hlt2 => exact absurd hlt2 (by push_cast; omega)
    next hge2 =>
      simp only [Option.some.injEq] at hrow
      subst hrow
      have htn : (((1000000 * e : Nat) : Int) - ((1000000 * d : Nat) : Int)).toNat
          = 1000000 * e - 1000000 * d := Int.toNat_sub _ _
      have he' : (1000000 * e : Nat) / 1000000 = e := by
        rw [Nat.mul_div_cancel_left]
        omega
      have hd' : (1000000 * d : Nat) / 1000000 = d := by
        rw [Nat.mul_div_cancel_left]
        omega
      have hed : (1000000 * e - 1000000 * d) / 1000000 = e - d := by
        have hmul : 1000000 * e - 1000000 * d = 1000000 * (e - d) := by omega
        rw [hmul, Nat.mul_div_cancel_left]
        omega
      have heU : e < U64 := by rw [he'] at h4; exact h4
      have htoN : ((1000000 * e : Nat) : Int).toNat = 1000000 * e := Int.toNat_natCast _
      simp only [htn, htoN, he', hd', hed]
      have m1 : (e - d) % U64 = e - d := Nat.mod_eq_of_lt (by omega)
      have m2 : e % U64 = e := Nat.mod_eq_of_lt heU
      have m3 : d % U64 = d := Nat.mod_eq_of_lt (by omega)
      rw [m1, m2, m3]
      omega

/-- C5 witness: a concrete whole-millisecond write (end 2 ms, duration
1 ms) satisfies the amended identity. -/
theorem C5_amended_witness :
    ∃ row, insert_usage "X" ((2000000 : Nat) : Int) 1000000 = some row ∧
      row.start_time = row.end_time - row.duration
      ∧ row.duration = row.end_time - row.start_time :=
  ⟨{ app_name := "X", start_time := 1, end_time := 2, duration := 1 }, rfl,
    C5_amended_whole_millis "X" 2000000 1000000
      { app_name := "X", start_time := 1, end_time := 2, duration := 1 }
      (by decide) (by decide) (by decide) (by decide) rfl⟩

/-- C6: the per-app windowed total query of tui-app/src/db.rs returns
exactly the sum of the durations of the stored rows whose app name equals
the given app and whose stored start time lies in the `[start,end)`
window. -/
theorem C6_roundtrip_aggregate (rows : List UsageRow) (app : String) (s e : Nat) :
    spec_window_sum rows app s e = get_data_for_app_and_time rows app s e := by
  unfold spec_window_sum get_data_for_app_and_time usageFilter
  rw [sqlSumAgg_getD]
  have hfe : (fun r : UsageRow => decide (r.app_name = app)
        && decide (s ≤ r.start_time) && decide (r.start_time < e))
      = (fun r : UsageRow => (r.app_name == app)
        && decide (s ≤ r.start_time) && decide (r.start_time < e)) := by
    funext r
    by_cases hr : r.app_name = app
    · simp [hr]
    · simp [hr]
  rw [hfe]

/-- C7: the code does not fail closed on a malformed activation snapshot —
a State payload whose 4-byte chunk decodes to the u32 value 999 (not a
valid state flag) makes the decode panic (`try_from(..).unwrap()`), so
processing the event stream dies instead of ignoring the snapshot. -/
theorem C7_panic_on_invalid_flags :
    decodeStates [231, 3, 0, 0] = none
    ∧ run allOk [Event.stateEv 1 [231, 3, 0, 0] 0 0] = none :=
  ⟨rfl, rfl⟩

/-- C9: `insert_usage` is partial at the epoch boundary — whenever the
wall-clock end time minus the measured duration falls before the Unix
epoch, the `duration_since(UNIX_EPOCH).unwrap()` panics (`none`) instead of
logging and discarding. -/
theorem C9_insert_usage_epoch_panic (a : String) (endt : Int) (dur : Nat)
    (h : endt - (dur : Int) < 0) : insert_usage a endt dur = none := by
  simp only [insert_usage]
  rw [if_pos h]

/-- C9 witness: end time 1000 ns after the epoch with a measured duration
of 2000 ns panics. -/
theorem C9_witness :
    ((1000 : Int) - ((2000 : Nat) : Int) < 0) ∧ insert_usage "X" 1000 2000 = none :=
  ⟨by decide, C9_insert_usage_epoch_panic "X" 1000 2000 (by decide)⟩

/-- C1 counterexample: Idled at t=0, then an activation snapshot at t=5
while the global idle state is Idle — the code opens a session immediately
(focus_started_at becomes `some 5`), it does not stay `none` as the claim
requires. -/
theorem C1_counterexample :
    globalIdle [Event.idled 0 0, Event.stateEv 7 [2, 0, 0, 0] 5 5] = true
    ∧ (run allOk [Event.idled 0 0, Event.stateEv 7 [2, 0, 0, 0] 5 5]).map
        (fun s => (getEntry s.toplevels 7).focused_since) = some (some 5) :=
  ⟨rfl, rfl⟩

/-- C1 amended: the code keeps no global idle flag, so an inactive→active
snapshot received while idle records the activated bit AND opens a session
immediately at the snapshot's monotonic time; the next Resumed event then
overwrites focus_started_at with the resume time (so after Resumed the
session is not backdated to the activation time). -/
theorem C1_amended_opens_while_idle (h t0 t1 t2 : Nat) (w0 w1 : Int) :
    run allOk [Event.idled t0 w0, Event.stateEv h [2, 0, 0, 0] t1 w1]
      = some { toplevels := [(h, { app_id := none, focused_since := some t1,
                                   state := some [TState.activated] })],
               db := [], writes := 0 }
    ∧ run allOk [Event.idled t0 w0, Event.stateEv h [2, 0, 0, 0] t1 w1, Event.resumed t2]
      = some { toplevels := [(h, { app_id := none, focused_since := some t2,
                                   state := some [TState.activated] })],
               db := [], writes := 0 }
    ∧ globalIdle [Event.idled t0 w0, Event.stateEv h [2, 0, 0, 0] t1 w1] = true := by
  refine ⟨?_, ?_, rfl⟩
  all_goals
    simp [run, runFrom, step, handleIdled, idleClose, handleState, handleResumed,
      resumeEntry, ensure, lookupTL, getEntry, setEntry, defaultTI, stateActive,
      decode_activated, emitUsage, initState, allOk, contains_activated, beq_activated_self]

/-- C2 counterexample: the state reached by [Idled, activation snapshot] is
reachable and has an entry with an open session while the global idle state
is Idle, violating the idle conjunct of invariant I1. -/
theorem C2_counterexample :
    globalIdle [Event.idled 3 3, Event.stateEv 1 [2, 0, 0, 0] 4 4] = true
    ∧ (run allOk [Event.idled 3 3, Event.stateEv 1 [2, 0, 0, 0] 4 4]).map
        (fun s => (getEntry s.toplevels 1).focused_since.isSome) = some true :=
  ⟨rfl, rfl⟩

/-- C2 amended: in every reachable state, an entry with an open session
(focus_started_at Some) has the activated bit set in its stored snapshot;
the global-idle conjunct of I1 does not hold (activation while idle opens a
session, see the counterexample). -/
theorem C2_amended_invariant (wok : Nat → Bool) (es : List Event) (s : AppState)
    (hrun : run wok es = some s) :
    ∀ q ∈ s.toplevels, q.2.focused_since.isSome = true → stateActive q.2.state = true :=
  inv_run hrun

/-- C2 witness: the amended invariant applied to the state reached by a
single activation snapshot. -/
theorem C2_amended_witness : stateActive (some [TState.activated]) = true :=
  C2_amended_invariant allOk [Event.stateEv 1 [2, 0, 0, 0] 0 0]
    { toplevels := [(1, { app_id := none, focused_since := some 0,
                          state := some [TState.activated] })],
      db := [], writes := 0 } rfl
    (1, { app_id := none, focused_since := some 0, state := some [TState.activated] })
    (by simp) rfl

/-- C4: in any reachable state, for an entry with an open session and a
known app id, a Closed event emits exactly one interval (no hypothesis on
the stored activation bit is needed: reachability forces it to be set),
appends it to the database, and unconditionally removes the entry, so a
later lookup of the same handle yields the brand-new default entry (no app
id, not activated, no open session). -/
theorem C4_closed_flushes_and_removes (es : List Event) (s : AppState) (h mono : Nat)
    (wall : Int) (i : ToplevelInfo) (fs : Nat) (a : String)
    (hrun : run allOk es = some s)
    (hlk : lookupTL s.toplevels h = some i)
    (hfs : i.focused_since = some fs)
    (ha : i.app_id = some a)
    (hw : 0 ≤ wall - ((mono - fs : Nat) : Int)) :
    ∃ row, insert_usage a wall (mono - fs) = some row ∧
      handleClosed allOk s h mono wall
        = some { toplevels := removeEntry s.toplevels h, db := s.db ++ [row],
                 writes := s.writes + 1 }
      ∧ lookupTL (removeEntry s.toplevels h) h = none
      ∧ getEntry (removeEntry s.toplevels h) h = defaultTI := by
  have hinv := inv_run hrun
  have hact : stateActive i.state = true :=
    hinv (h, i) (lookupTL_mem hlk) (by rw [hfs]; rfl)
  have hrow := insert_usage_eq_some a hw
  refine ⟨_, hrow, ?_, lookupTL_removeEntry _ _, ?_⟩
  · simp only [handleClosed]
    rw [ensure_of_lookup hlk, getEntry_of_lookup hlk, if_pos hact,
      emitUsage_some_of allOk s.db s.writes mono wall hfs ha hrow]
    simp [allOk]
  · unfold getEntry
    rw [lookupTL_removeEntry]
    rfl

/-- C4 witness: the reachable state with one entry holding app id "A" and a
session opened at t=0; a Closed event at t=30s emits the single interval
[0,30s) and removes the entry. -/
theorem C4_witness :
    ∃ row, insert_usage "A" 30000000000 (30000000000 - 0) = some row ∧
      handleClosed allOk
          { toplevels := [(1, { app_id := some "A", focused_since := some 0,
                                state := some [TState.activated] })],
            db := [], writes := 0 } 1 30000000000 30000000000
        = some { toplevels := [], db := [row], writes := 1 }
      ∧ lookupTL ([] : List (Nat × ToplevelInfo)) 1 = none
      ∧ getEntry ([] : List (Nat × ToplevelInfo)) 1 = defaultTI :=
  C4_closed_flushes_and_removes [Event.appId 1 "A", Event.stateEv 1 [2, 0, 0, 0] 0 0]
    { toplevels := [(1, { app_id := some "A", focused_since := some 0,
                          state := some [TState.activated] })],
      db := [], writes := 0 } 1 30000000000 30000000000
    { app_id := some "A", focused_since := some 0, state := some [TState.activated] }
    0 "A" rfl rfl rfl rfl (by decide)

/-- C8: the in-memory state is independent of database-write outcomes — for
any write-outcome oracle the run's registry equals the registry of the
all-writes-succeed run (in particular processing continues identically
after a failed write), and under the all-writes-fail oracle the database
stays empty: a dropped interval is never retried. -/
theorem C8_write_failure_invisible (wok : Nat → Bool) (es : List Event) :
    (run wok es).map AppState.toplevels = (run allOk es).map AppState.toplevels
    ∧ (run neverOk es).map AppState.db
      = (run neverOk es).map (fun _ => ([] : List UsageRow)) := by
  constructor
  · exact runFrom_tl_congr wok allOk es rfl
  · cases hr : run neverOk es with
    | none => rfl
    | some s =>
      unfold run at hr
      have hdb : s.db = [] := by
        have := runFrom_db_neverOk hr
        simpa [initState] using this
      simp [hdb]

/-- C10: the interval emitted by a session close carries the app identifier
stored at close time — in any reachable state, a deactivating snapshot for
an entry whose current app id is `a` emits a row named `a` and clears the
session, regardless of which identifier (if any) was present when the
session opened. -/
theorem C10_latest_app_id_at_close (wok : Nat → Bool) (es : List Event) (s : AppState)
    (h mono : Nat) (wall : Int) (bytes : List Nat) (sts : List TState)
    (i : ToplevelInfo) (fs : Nat) (a : String)
    (hrun : run wok es = some s)
    (hlk : lookupTL s.toplevels h = some i)
    (hfs : i.focused_since = some fs)
    (ha : i.app_id = some a)
    (hdec : decodeStates bytes = some sts)
    (hna : sts.contains TState.activated = false)
    (hw : 0 ≤ wall - ((mono - fs : Nat) : Int)) :
    ∃ row, insert_usage a wall (mono - fs) = some row ∧ row.app_name = a ∧
      handleState wok s h bytes mono wall
        = some { toplevels := setEntry s.toplevels h
                   { app_id := some a, focused_since := none, state := some sts },
                 db := if wok s.writes then s.db ++ [row] else s.db,
                 writes := s.writes + 1 } := by
  have hinv := inv_run hrun
  have hact : stateActive i.state = true :=
    hinv (h, i) (lookupTL_mem hlk) (by rw [hfs]; rfl)
  have hrow := insert_usage_eq_some a hw
  refine ⟨_, hrow, rfl, ?_⟩
  simp only [handleState, hdec]
  rw [ensure_of_lookup hlk, getEntry_of_lookup hlk, hact, hna]
  simp only [Bool.not_false, Bool.and_true, if_true,
    emitUsage_some_of wok s.db s.writes mono wall hfs ha hrow,
    Option.map_some', Bool.and_false, Bool.not_true]
  simp [ha]

/-- C10 witness: a session opened with no identifier at t=0, the identifier
"X" arriving afterwards, then a deactivating snapshot at t=9 — the interval
is recorded and named "X". -/
theorem C10_witness :
    ∃ row, insert_usage "X" 9 (9 - 0) = some row ∧ row.app_name = "X" ∧
      handleState allOk
          { toplevels := [(1, { app_id := some "X", focused_since := some 0,
                                state := some [TState.activated] })],
            db := [], writes := 0 } 1 ([] : List Nat) 9 9
        = some { toplevels := setEntry
                   [(1, { app_id := some "X", focused_since := some 0,
                          state := some [TState.activated] })] 1
                   { app_id := some "X", focused_since := none, state := some [] },
                 db := if allOk 0 then [] ++ [row] else [],
                 writes := 0 + 1 } :=
  C10_latest_app_id_at_close allOk [Event.stateEv 1 [2, 0, 0, 0] 0 0, Event.appId 1 "X"]
    { toplevels := [(1, { app_id := some "X", focused_since := some 0,
                          state := some [TState.activated] })],
      db := [], writes := 0 } 1 9 9 ([] : List Nat) ([] : List TState)
    { app_id := some "X", focused_since := some 0, state := some [TState.activated] }
    0 "X" rfl rfl rfl rfl rfl rfl (by decide)

end AppUsage
